import Mathlib

/-!
Shallow embedding of the Louvain neighborhood index of
`graphology-indices/neighborhood/louvain` (undirected and directed variants),
as vendored in this repository, together with proofs settling the frozen
claims about it.

Modelling conventions:
* JavaScript doubles are modelled as exact rationals (`ℚ`); community / node
  counters as `Nat`; the `counts` member-count array as `Int` (JS numbers under
  `-=`/`+=`).
* Typed arrays are modelled as Lean lists of their allocated length; an
  in-bounds read `a[i]` becomes `l.getD i 0`, and a write `a[i] = v` becomes
  `l.set i v` (both are no-ops out of bounds, like the claims' uses, which are
  all in bounds).
* Graph node keys are modelled by their position in the node iteration order,
  so `this.nodes` is `List.range order` and the id lookup table is the
  identity.  The constructor's `node < neighbor` key comparison becomes a
  comparison of those positions; this only fixes which endpoint of an edge is
  the "counting" one and affects no claim.
* The weight getter is modelled by the rational weight stored on each edge
  (covering both the unweighted mode, with all weights 1, and the weighted
  mode with numeric weights); the missing/non-numeric-defaults-to-1 fallback
  is outside every claim.
-/

/-- An undirected multigraph: `order` nodes keyed `0..order-1` (in iteration
order) and a list of edges `(endpoint, endpoint, weight)` in insertion order.
A self-loop has both endpoints equal. -/
structure UGraph where
  order : Nat
  edgeList : List (Nat × Nat × ℚ)
deriving Repr, DecidableEq

namespace UGraph

/-- Source `graph.size`: the number of edges. -/
def size (g : UGraph) : Nat := g.edgeList.length

/-- Well-formed input: every edge endpoint is a node of the graph. -/
def wf (g : UGraph) : Prop := ∀ e ∈ g.edgeList, e.1 < g.order ∧ e.2.1 < g.order

/-- Source `graph.opposite(node, edge)`: the endpoint of `e` other than `i`
(`i` itself for a self-loop). -/
def opposite (i : Nat) (e : Nat × Nat × ℚ) : Nat := if e.1 = i then e.2.1 else e.1

/-- Source `graph.edges(node)`: the edges incident to node `i`, each edge once
(a self-loop appears once), in insertion order. -/
def incident (g : UGraph) (i : Nat) : List (Nat × Nat × ℚ) :=
  g.edgeList.filter (fun e => e.1 == i || e.2.1 == i)

/-- The `(neighbor, weight)` pairs the constructor's inner loop appends for
node `i`, in order. -/
def blockEntries (g : UGraph) (i : Nat) : List (Nat × ℚ) :=
  (g.incident i).map (fun e => (opposite i e, e.2.2))

/-- The value the constructor leaves in `totalWeights[i]`: the sum of the
weights of the edges incident to `i` (a self-loop counted once). -/
def wdegree (g : UGraph) (i : Nat) : ℚ := ((g.incident i).map (fun e => e.2.2)).sum

/-- The value of the constructor's running offset `n` when it reaches node
`i`, i.e. `starts[i]`. -/
def psum (g : UGraph) (i : Nat) : Nat :=
  ((List.range i).map (fun k => (g.blockEntries k).length)).sum

/-- All adjacency entries laid out by the constructor, in order. -/
def entries (g : UGraph) : List (Nat × ℚ) :=
  ((List.range g.order).map g.blockEntries).flatten

/-- The value the constructor accumulates in `this.M`: for each node, the
weights of incident edges whose opposite endpoint is strictly larger
(`if (node < neighbor) this.M += weight`). -/
def buildM (g : UGraph) : ℚ :=
  ((List.range g.order).map (fun i =>
    (((g.incident i).filter (fun e => decide (i < opposite i e))).map
      (fun e => e.2.2)).sum)).sum

end UGraph

/-- State of `UndirectedLouvainIndex`. -/
structure UndirectedLouvainIndex where
  C : Nat
  M : ℚ
  E : Nat
  level : Nat
  /-- Source `this.nodes.length` (node keys are their iteration positions). -/
  N : Nat
  neighborhood : List Nat
  weights : List ℚ
  loops : List ℚ
  starts : List Nat
  belongings : List Nat
  counts : List Int
  internalWeights : List ℚ
  totalWeights : List ℚ
  keepCounts : Bool
  keepDendrogram : Bool
  dendrogram : List (List Nat)
  /-- the flattened mapping; `[]` stands for JS `null` (dendrogram mode). -/
  mapping : List Nat
deriving Repr, DecidableEq

namespace UndirectedLouvainIndex

/-- The constructor `UndirectedLouvainIndex(graph, options)`. -/
def ofGraph (g : UGraph) (keepDendrogram keepCounts : Bool) : UndirectedLouvainIndex :=
  let ents := g.entries
  { C := g.order
    M := g.buildM
    E := 2 * g.size
    level := 0
    N := g.order
    neighborhood := ents.map Prod.fst ++ List.replicate (2 * g.size - ents.length) 0
    weights := ents.map Prod.snd ++ List.replicate (2 * g.size - ents.length) 0
    loops := List.replicate g.order 0
    starts := (List.range g.order).map g.psum ++ [2 * g.size]
    belongings := List.range g.order
    counts := if keepCounts then List.replicate g.order 1 else []
    internalWeights := List.replicate g.order 0
    totalWeights := (List.range g.order).map g.wdegree
    keepCounts := keepCounts
    keepDendrogram := keepDendrogram
    dendrogram := if keepDendrogram then [List.range g.order] else []
    mapping := if keepDendrogram then [] else List.range g.order }

/-- Source `UndirectedLouvainIndex.prototype.move`. -/
def move (s : UndirectedLouvainIndex) (i : Nat)
    (degree currentCommunityDegree targetCommunityDegree : ℚ)
    (targetCommunity : Nat) : UndirectedLouvainIndex :=
  let currentCommunity := s.belongings.getD i 0
  let loops := s.loops.getD i 0
  let tw1 := s.totalWeights.set currentCommunity
    (s.totalWeights.getD currentCommunity 0 - (degree + loops))
  let tw2 := tw1.set targetCommunity (tw1.getD targetCommunity 0 + (degree + loops))
  let iw1 := s.internalWeights.set currentCommunity
    (s.internalWeights.getD currentCommunity 0 - (currentCommunityDegree * 2 + loops))
  let iw2 := iw1.set targetCommunity
    (iw1.getD targetCommunity 0 + (targetCommunityDegree * 2 + loops))
  let bel := s.belongings.set i targetCommunity
  let cts :=
    if s.keepCounts then
      let count := s.counts.getD i 0
      let c1 := s.counts.set currentCommunity (s.counts.getD currentCommunity 0 - count)
      c1.set targetCommunity (c1.getD targetCommunity 0 + count)
    else s.counts
  { s with totalWeights := tw2, internalWeights := iw2, belongings := bel, counts := cts }

/-- Source `UndirectedLouvainIndex.prototype.expensiveMove`: recomputes the degree
figures from the node's adjacency block and commits via `move`. -/
def expensiveMove (s : UndirectedLouvainIndex) (i ci : Nat) : UndirectedLouvainIndex :=
  let lo := s.starts.getD i 0
  let hi := s.starts.getD (i + 1) 0
  let os := List.range' lo (hi - lo)
  let c := s.belongings.getD i 0
  let degree := (os.map (fun o => s.weights.getD o 0)).sum
  let targetCommunityDegree :=
    ((os.filter (fun o => s.belongings.getD (s.neighborhood.getD o 0) 0 == ci)).map
      (fun o => s.weights.getD o 0)).sum
  let currentCommunityDegree :=
    ((os.filter (fun o => s.belongings.getD (s.neighborhood.getD o 0) 0 == c)).map
      (fun o => s.weights.getD o 0)).sum
  s.move i degree currentCommunityDegree targetCommunityDegree ci

end UndirectedLouvainIndex

/-- One entry of `zoomOut`'s `inducedGraph` object. -/
structure UInducedCommunity where
  adj : List (Nat × ℚ)
  counts : Int
  totalWeights : ℚ
  internalWeights : ℚ
deriving Repr, DecidableEq

/-- Default used to read `inducedGraph[ci]` (all in-bounds in fact). -/
def dfltInduced : UInducedCommunity :=
  { adj := [], counts := 0, totalWeights := 0, internalWeights := 0 }

/-- Source `adj[cj] += w`, creating the key with `adj[cj] = 0` first when absent
(`if (!(cj in adj)) adj[cj] = 0`). -/
def bump (adj : List (Nat × ℚ)) (k : Nat) (w : ℚ) : List (Nat × ℚ) :=
  if (adj.lookup k).isSome then
    adj.map (fun p => if p.1 = k then (p.1, p.2 + w) else p)
  else adj ++ [(k, w)]

namespace UndirectedLouvainIndex

/-- Source `zoomOut`, first loop: renumbering communities densely in order of first
encounter; returns the `newLabels` table (old id, new id) and the
`inducedGraph` entries indexed by new id. -/
def renumber (s : UndirectedLouvainIndex) : List (Nat × Nat) × List UInducedCommunity :=
  (List.range s.C).foldl (fun acc i =>
    let ci := s.belongings.getD i 0
    if (acc.1.lookup ci).isSome then acc
    else (acc.1 ++ [(ci, acc.2.length)],
          acc.2 ++ [{ adj := []
                      counts := if s.keepCounts then s.counts.getD ci 0 else 0
                      totalWeights := s.totalWeights.getD ci 0
                      internalWeights := s.internalWeights.getD ci 0 }]))
    ([], [])

/-- Contents of `this.belongings` right after the renumbering loop
(`this.belongings[i] = newLabels[ci]` for `i < C`, later positions stale). -/
def zoomBelongings (s : UndirectedLouvainIndex) : List Nat :=
  (List.range s.C).foldl
    (fun b i => b.set i (((s.renumber.1.lookup (s.belongings.getD i 0))).getD 0))
    s.belongings

/-- Source `zoomOut`, induced-graph loop: accumulates inter-community weights into
the per-community `adj` maps and counts `E`.  NOTE: faithfully reproduces the
source's `adj[cj] += this.weights[n]`, which indexes the edge-weight array by
the neighbour's *node id* `n` rather than by the edge slot `j`, and its
unconditional `E++` on every scanned inter-community entry. -/
def zoomInduced (s : UndirectedLouvainIndex) : List UInducedCommunity × Nat :=
  let bel := s.zoomBelongings
  (List.range s.C).foldl (fun acc i =>
    let ci := bel.getD i 0
    (List.range' (s.starts.getD i 0) (s.starts.getD (i + 1) 0 - s.starts.getD i 0)).foldl
      (fun acc2 j =>
        let n := s.neighborhood.getD j 0
        let cj := bel.getD n 0
        if ci = cj then acc2
        else
          (acc2.1.set ci
            (let d := acc2.1.getD ci dfltInduced
             { d with adj := bump d.adj cj (s.weights.getD n 0) }),
           acc2.2 + 1))
      acc)
    (s.renumber.2, 0)

/-- Source `for (cj in adj)`: JS iterates integer-like object keys in ascending
order; all keys are new community ids `< Cn`. -/
def emitAdj (Cn : Nat) (adj : List (Nat × ℚ)) : List (Nat × ℚ) :=
  (List.range Cn).filterMap (fun cj => (adj.lookup cj).map (fun w => (cj, w)))

/-- Accumulator of `zoomOut`'s rewrite loop. -/
structure URewriteAcc where
  tw : List ℚ
  iw : List ℚ
  lp : List ℚ
  cts : List Int
  starts : List Nat
  bel : List Nat
  nbhd : List Nat
  wts : List ℚ
  n : Nat
deriving Repr

/-- Writing a run of `(neighbor, weight)` entries at positions `n`, `n+1`, ... -/
def writeEntries (nbhd : List Nat) (wts : List ℚ) (n : Nat) (es : List (Nat × ℚ)) :
    List Nat × List ℚ × Nat :=
  es.foldl (fun acc p => (acc.1.set acc.2.2 p.1, acc.2.1.set acc.2.2 p.2, acc.2.2 + 1))
    (nbhd, wts, n)

/-- Source `zoomOut`'s rewrite loop over `ci in inducedGraph` (ascending ids). -/
def zoomRewrite (s : UndirectedLouvainIndex) : URewriteAcc :=
  let Cn := s.renumber.2.length
  (List.range Cn).foldl (fun acc ci =>
    let data := s.zoomInduced.1.getD ci dfltInduced
    let es := emitAdj Cn data.adj
    let w := writeEntries acc.nbhd acc.wts acc.n es
    { tw := acc.tw.set ci data.totalWeights
      iw := acc.iw.set ci data.internalWeights
      lp := acc.lp.set ci data.internalWeights
      cts := if s.keepCounts then acc.cts.set ci data.counts else acc.cts
      starts := acc.starts.set ci acc.n
      bel := acc.bel.set ci ci
      nbhd := w.1
      wts := w.2.1
      n := w.2.2 })
    { tw := s.totalWeights, iw := s.internalWeights, lp := s.loops, cts := s.counts
      starts := s.starts, bel := s.zoomBelongings, nbhd := s.neighborhood
      wts := s.weights, n := 0 }

/-- The final value of the rewrite loop's offset `n`: the number of adjacency
entries actually written (stored) by `zoomOut`. -/
def zoomOutWritten (s : UndirectedLouvainIndex) : Nat := s.zoomRewrite.n

/-- Source `UndirectedLouvainIndex.prototype.zoomOut`. -/
def zoomOut (s : UndirectedLouvainIndex) : UndirectedLouvainIndex :=
  let bel := s.zoomBelongings
  let Cn := s.renumber.2.length
  let En := s.zoomInduced.2
  let dendrogram2 :=
    if s.keepDendrogram then
      s.dendrogram ++
        [(List.range s.N).map (fun i => bel.getD ((s.dendrogram.getD s.level []).getD i 0) 0)]
    else s.dendrogram
  let mapping2 :=
    if s.keepDendrogram then s.mapping
    else (List.range s.N).map (fun i => bel.getD (s.mapping.getD i 0) 0)
  let rw := s.zoomRewrite
  { s with
    C := Cn
    E := En
    level := s.level + 1
    totalWeights := rw.tw
    internalWeights := rw.iw
    loops := rw.lp
    counts := rw.cts
    starts := rw.starts.set Cn En
    belongings := rw.bel
    neighborhood := rw.nbhd
    weights := rw.wts
    dendrogram := dendrogram2
    mapping := mapping2 }

/-- Source `UndirectedLouvainIndex.prototype.delta`. -/
def delta (s : UndirectedLouvainIndex) (degree targetCommunityDegree : ℚ)
    (targetCommunity : Nat) : ℚ :=
  targetCommunityDegree / s.M -
    s.totalWeights.getD targetCommunity 0 * degree / (2 * s.M * s.M)

/-- Source `UndirectedLouvainIndex.prototype.modularity`. -/
def modularity (s : UndirectedLouvainIndex) : ℚ :=
  ((List.range s.C).map (fun i =>
    s.internalWeights.getD i 0 / (s.M * 2) -
      (s.totalWeights.getD i 0 / (s.M * 2)) ^ 2)).sum

/-- Source `UndirectedLouvainIndex.prototype.bounds`. -/
def bounds (s : UndirectedLouvainIndex) (i : Nat) : Nat × Nat :=
  (s.starts.getD i 0, s.starts.getD (i + 1) 0)

/-- The `(neighbor, weight)` pairs currently stored in node `i`'s contiguous
block (what `project()` reads off between `starts[i]` and `starts[i+1]`). -/
def blockAt (s : UndirectedLouvainIndex) (i : Nat) : List (Nat × ℚ) :=
  (List.range' (s.bounds i).1 ((s.bounds i).2 - (s.bounds i).1)).map
    (fun o => (s.neighborhood.getD o 0, s.weights.getD o 0))

/-- Source `UndirectedLouvainIndex.prototype.collect`: with node keys modelled by
their iteration positions, the returned key-to-community object is exactly
the mapping list read at the given level. -/
def collect (s : UndirectedLouvainIndex) (level : Nat) : List Nat :=
  if s.keepDendrogram then s.dendrogram.getD level [] else s.mapping

end UndirectedLouvainIndex

/-- A directed multigraph: `order` nodes keyed `0..order-1` and a list of
edges `(source, target, weight)` in insertion order. -/
structure DGraph where
  order : Nat
  edgeList : List (Nat × Nat × ℚ)
deriving Repr, DecidableEq

namespace DGraph

/-- Source `graph.size`. -/
def size (g : DGraph) : Nat := g.edgeList.length

/-- Source `graph.outEdges(node)`. -/
def outEdges (g : DGraph) (i : Nat) : List (Nat × Nat × ℚ) :=
  g.edgeList.filter (fun e => e.1 == i)

/-- Source `graph.inEdges(node)`. -/
def inEdges (g : DGraph) (i : Nat) : List (Nat × Nat × ℚ) :=
  g.edgeList.filter (fun e => e.2.1 == i)

/-- The `(neighbor, weight)` pairs appended for node `i`'s outgoing edges. -/
def outEntries (g : DGraph) (i : Nat) : List (Nat × ℚ) :=
  (g.outEdges i).map (fun e => (UGraph.opposite i e, e.2.2))

/-- The `(neighbor, weight)` pairs appended for node `i`'s incoming edges. -/
def inEntries (g : DGraph) (i : Nat) : List (Nat × ℚ) :=
  (g.inEdges i).map (fun e => (UGraph.opposite i e, e.2.2))

/-- All adjacency entries of node `i` in constructor order: out-edges first,
then in-edges. -/
def dblock (g : DGraph) (i : Nat) : List (Nat × ℚ) := g.outEntries i ++ g.inEntries i

/-- Value of `starts[i]` at build time. -/
def dpsum (g : DGraph) (i : Nat) : Nat :=
  ((List.range i).map (fun k => (g.dblock k).length)).sum

/-- All entries, in constructor order. -/
def dentries (g : DGraph) : List (Nat × ℚ) :=
  ((List.range g.order).map g.dblock).flatten

/-- Value of `this.M`: accumulated once per outgoing traversal. -/
def buildM (g : DGraph) : ℚ :=
  ((List.range g.order).map (fun i => ((g.outEdges i).map (fun e => e.2.2)).sum)).sum

end DGraph

/-- State of `DirectedLouvainIndex`. -/
structure DirectedLouvainIndex where
  C : Nat
  M : ℚ
  E : Nat
  level : Nat
  N : Nat
  neighborhood : List Nat
  weights : List ℚ
  loops : List ℚ
  starts : List Nat
  offsets : List Nat
  belongings : List Nat
  counts : List Int
  internalWeights : List ℚ
  totalInWeights : List ℚ
  totalOutWeights : List ℚ
  keepCounts : Bool
  keepDendrogram : Bool
  dendrogram : List (List Nat)
  mapping : List Nat
deriving Repr, DecidableEq

namespace DirectedLouvainIndex

/-- The constructor `DirectedLouvainIndex(graph, options)`.  The loop
accumulates `totalInWeights[ids[neighbor]]` while scanning each source's
outgoing edges; its final value at node `j` is the sum of the weights of
`j`'s incoming edges, written here directly. -/
def ofGraph (g : DGraph) (keepDendrogram keepCounts : Bool) : DirectedLouvainIndex :=
  let ents := g.dentries
  { C := g.order
    M := g.buildM
    E := 2 * g.size
    level := 0
    N := g.order
    neighborhood := ents.map Prod.fst ++ List.replicate (2 * g.size - ents.length) 0
    weights := ents.map Prod.snd ++ List.replicate (2 * g.size - ents.length) 0
    loops := List.replicate g.order 0
    starts := (List.range g.order).map g.dpsum ++ [2 * g.size]
    offsets := (List.range g.order).map (fun i => g.dpsum i + (g.outEntries i).length)
    belongings := List.range g.order
    counts := if keepCounts then List.replicate g.order 1 else []
    internalWeights := List.replicate g.order 0
    totalInWeights := (List.range g.order).map (fun j => ((g.inEdges j).map (fun e => e.2.2)).sum)
    totalOutWeights := (List.range g.order).map (fun i => ((g.outEdges i).map (fun e => e.2.2)).sum)
    keepCounts := keepCounts
    keepDendrogram := keepDendrogram
    dendrogram := if keepDendrogram then [List.range g.order] else []
    mapping := if keepDendrogram then [] else List.range g.order }

end DirectedLouvainIndex

/-- One entry of the directed `zoomOut`'s `inducedGraph` object. -/
structure DInducedCommunity where
  inAdj : List (Nat × ℚ)
  outAdj : List (Nat × ℚ)
  counts : Int
  totalInWeights : ℚ
  totalOutWeights : ℚ
  internalWeights : ℚ
deriving Repr, DecidableEq

/-- Default used to read the directed `inducedGraph[ci]`. -/
def dfltDInduced : DInducedCommunity :=
  { inAdj := [], outAdj := [], counts := 0, totalInWeights := 0
    totalOutWeights := 0, internalWeights := 0 }

namespace DirectedLouvainIndex

/-- Directed `zoomOut`, renumbering loop. -/
def renumber (s : DirectedLouvainIndex) : List (Nat × Nat) × List DInducedCommunity :=
  (List.range s.C).foldl (fun acc i =>
    let ci := s.belongings.getD i 0
    if (acc.1.lookup ci).isSome then acc
    else (acc.1 ++ [(ci, acc.2.length)],
          acc.2 ++ [{ inAdj := []
                      outAdj := []
                      counts := if s.keepCounts then s.counts.getD ci 0 else 0
                      totalInWeights := s.totalInWeights.getD ci 0
                      totalOutWeights := s.totalOutWeights.getD ci 0
                      internalWeights := s.internalWeights.getD ci 0 }]))
    ([], [])

/-- Contents of `this.belongings` right after the directed renumbering loop. -/
def zoomBelongings (s : DirectedLouvainIndex) : List Nat :=
  (List.range s.C).foldl
    (fun b i => b.set i (((s.renumber.1.lookup (s.belongings.getD i 0))).getD 0))
    s.belongings

/-- Directed `zoomOut`, induced-graph loop.  The source computes
`out = j < offset` (a boolean) and then selects `adj = out === 0 ? inAdj :
outAdj`; a JS strict equality between a boolean and the number `0` is always
false, so `outAdj` is selected for every entry (both outgoing and incoming)
and `inAdj` stays empty.  It also reads `this.weights[n]` (the neighbour's
node id) instead of `this.weights[j]`, like the undirected variant, and
increments `E` once per scanned inter-community entry. -/
def zoomInduced (s : DirectedLouvainIndex) : List DInducedCommunity × Nat :=
  let bel := s.zoomBelongings
  (List.range s.C).foldl (fun acc i =>
    let ci := bel.getD i 0
    (List.range' (s.starts.getD i 0) (s.starts.getD (i + 1) 0 - s.starts.getD i 0)).foldl
      (fun acc2 j =>
        let n := s.neighborhood.getD j 0
        let cj := bel.getD n 0
        if ci = cj then acc2
        else
          (acc2.1.set ci
            (let d := acc2.1.getD ci dfltDInduced
             { d with outAdj := bump d.outAdj cj (s.weights.getD n 0) }),
           acc2.2 + 1))
      acc)
    (s.renumber.2, 0)

/-- Accumulator of the directed rewrite loop. -/
structure DRewriteAcc where
  tin : List ℚ
  tout : List ℚ
  iw : List ℚ
  lp : List ℚ
  cts : List Int
  starts : List Nat
  offs : List Nat
  bel : List Nat
  nbhd : List Nat
  wts : List ℚ
  n : Nat
deriving Repr

/-- Directed `zoomOut`, rewrite loop: per community, `inAdj` entries are
emitted first, then `offsets[ci] = n` is recorded, then `outAdj` entries —
the reverse of the constructor's out-first layout. -/
def zoomRewrite (s : DirectedLouvainIndex) : DRewriteAcc :=
  let Cn := s.renumber.2.length
  (List.range Cn).foldl (fun acc ci =>
    let data := s.zoomInduced.1.getD ci dfltDInduced
    let esIn := UndirectedLouvainIndex.emitAdj Cn data.inAdj
    let w1 := UndirectedLouvainIndex.writeEntries acc.nbhd acc.wts acc.n esIn
    let esOut := UndirectedLouvainIndex.emitAdj Cn data.outAdj
    let w2 := UndirectedLouvainIndex.writeEntries w1.1 w1.2.1 w1.2.2 esOut
    { tin := acc.tin.set ci data.totalInWeights
      tout := acc.tout.set ci data.totalOutWeights
      iw := acc.iw.set ci data.internalWeights
      lp := acc.lp.set ci data.internalWeights
      cts := if s.keepCounts then acc.cts.set ci data.counts else acc.cts
      starts := acc.starts.set ci acc.n
      offs := acc.offs.set ci w1.2.2
      bel := acc.bel.set ci ci
      nbhd := w2.1
      wts := w2.2.1
      n := w2.2.2 })
    { tin := s.totalInWeights, tout := s.totalOutWeights, iw := s.internalWeights
      lp := s.loops, cts := s.counts, starts := s.starts, offs := s.offsets
      bel := s.zoomBelongings, nbhd := s.neighborhood, wts := s.weights, n := 0 }

/-- Source `DirectedLouvainIndex.prototype.zoomOut`. -/
def zoomOut (s : DirectedLouvainIndex) : DirectedLouvainIndex :=
  let bel := s.zoomBelongings
  let Cn := s.renumber.2.length
  let En := s.zoomInduced.2
  let dendrogram2 :=
    if s.keepDendrogram then
      s.dendrogram ++
        [(List.range s.N).map (fun i => bel.getD ((s.dendrogram.getD s.level []).getD i 0) 0)]
    else s.dendrogram
  let mapping2 :=
    if s.keepDendrogram then s.mapping
    else (List.range s.N).map (fun i => bel.getD (s.mapping.getD i 0) 0)
  let rw := s.zoomRewrite
  { s with
    C := Cn
    E := En
    level := s.level + 1
    totalInWeights := rw.tin
    totalOutWeights := rw.tout
    internalWeights := rw.iw
    loops := rw.lp
    counts := rw.cts
    starts := rw.starts.set Cn En
    offsets := rw.offs
    belongings := rw.bel
    neighborhood := rw.nbhd
    weights := rw.wts
    dendrogram := dendrogram2
    mapping := mapping2 }

/-- Source `DirectedLouvainIndex.prototype.outBounds`: the sub-range of node `i`'s
block holding its outgoing edges. -/
def outBounds (s : DirectedLouvainIndex) (i : Nat) : Nat × Nat :=
  (s.starts.getD i 0, s.offsets.getD i 0)

/-- Source `DirectedLouvainIndex.prototype.inBounds`: the sub-range of node `i`'s
block holding its incoming edges. -/
def inBounds (s : DirectedLouvainIndex) (i : Nat) : Nat × Nat :=
  (s.offsets.getD i 0, s.starts.getD (i + 1) 0)

end DirectedLouvainIndex

/-- One index operation of the undirected Louvain lifecycle after
construction: a raw `move`, a `move` whose degree figures are recomputed from
the node's actual adjacency block (`expensiveMove`), or a `zoomOut`. -/
inductive LouvainOp where
  | move (i : Nat) (degree currentCommunityDegree targetCommunityDegree : ℚ)
      (targetCommunity : Nat)
  | expensive (i ci : Nat)
  | zoom
deriving Repr, DecidableEq

/-- Apply one operation. -/
def applyOp (s : UndirectedLouvainIndex) : LouvainOp → UndirectedLouvainIndex
  | .move i d cd td t => s.move i d cd td t
  | .expensive i ci => s.expensiveMove i ci
  | .zoom => s.zoomOut

/-- Run a sequence of operations. -/
def runOps (s : UndirectedLouvainIndex) (ops : List LouvainOp) : UndirectedLouvainIndex :=
  ops.foldl applyOp s

/-- The per-level belongings arrays produced along a run: at each `zoomOut`,
the densely renumbered belongings array the coarsening computes (the array
composed into the dendrogram / flattened mapping). -/
def levelMaps (s : UndirectedLouvainIndex) : List LouvainOp → List (List Nat)
  | [] => []
  | op :: rest =>
    (match op with
     | .zoom => [s.zoomBelongings]
     | _ => []) ++ levelMaps (applyOp s op) rest

/-- The composition of a chronological sequence of per-level belongings
arrays, applied to the identity assignment of the `N` original nodes. -/
def composeMaps (N : Nat) (bs : List (List Nat)) : List Nat :=
  bs.foldl (fun m b => m.map (fun x => b.getD x 0)) (List.range N)

/-- The full dendrogram a sequence of per-level belongings arrays determines:
entry `k` is the composition of the first `k` arrays. -/
def dendroSpec (N : Nat) (bs : List (List Nat)) : List (List Nat) :=
  (List.range (bs.length + 1)).map (fun k => composeMaps N (bs.take k))

/-- The sum of `totalWeights` over the current communities `0..C-1`. -/
def sumTotalWeights (s : UndirectedLouvainIndex) : ℚ :=
  ((List.range s.C).map (fun c => s.totalWeights.getD c 0)).sum

/-- Modelled from the spec's wording for the induced coarse graph: the sum of
the weights of all current-level edges joining a node of community `c` to a
node of community `d` (under the belongings array `bel`). -/
def interCommunityWeightSpec (g : UGraph) (bel : List Nat) (c d : Nat) : ℚ :=
  ((g.edgeList.filter (fun e =>
      (bel.getD e.1 0 == c && bel.getD e.2.1 0 == d) ||
      (bel.getD e.1 0 == d && bel.getD e.2.1 0 == c))).map (fun e => e.2.2)).sum

/-- Weighted star: centre `0`, leaves `1`, `2`, `3`, weights `2`, `3`, `4`. -/
def starG : UGraph := ⟨4, [(0, 1, 2), (0, 2, 3), (0, 3, 4)]⟩

/-- Unweighted triangle on nodes `0`, `1`, `2`. -/
def triG : UGraph := ⟨3, [(0, 1, 1), (0, 2, 1), (1, 2, 1)]⟩

/-- Unweighted path `0 - 1 - 2`. -/
def pathG : UGraph := ⟨3, [(0, 1, 1), (1, 2, 1)]⟩

/-- A single node carrying a self-loop of weight `1`. -/
def loopG : UGraph := ⟨1, [(0, 0, 1)]⟩

/-- Directed graph with the single edge `0 → 1`. -/
def dirG : DGraph := ⟨2, [(0, 1, 1)]⟩

/-- The undirected star index (defaults: no dendrogram, no counts). -/
def starIdx : UndirectedLouvainIndex := UndirectedLouvainIndex.ofGraph starG false false

/-- The star index after the valid sequence `zoomOut`, `expensiveMove 2 0`. -/
def starIdx2 : UndirectedLouvainIndex := starIdx.zoomOut.expensiveMove 2 0

/-- The star index after the valid sequence `zoomOut`, `expensiveMove 2 0`,
`zoomOut`. -/
def starIdx3 : UndirectedLouvainIndex := starIdx2.zoomOut

/-- The triangle index after the valid `expensiveMove 1 0` (merging node `1`
into node `0`'s community). -/
def triIdx : UndirectedLouvainIndex :=
  (UndirectedLouvainIndex.ofGraph triG false false).expensiveMove 1 0

/-- The directed index of `dirG`. -/
def dirIdx : DirectedLouvainIndex := DirectedLouvainIndex.ofGraph dirG false false

/-! ## Generic list lemmas -/

theorem list_set_getD_self {α : Type} (l : List α) (n : Nat) (d : α) :
    l.set n (l.getD n d) = l := by
  by_cases h : n < l.length
  · apply List.ext_getElem
    · simp
    · intro i h1 h2
      by_cases hi : i = n
      · subst hi
        simp [List.getD, List.getElem?_eq_getElem h]
      · simp [List.getElem_set_ne (fun he => hi he.symm)]
  · exact List.set_eq_of_length_le (Nat.le_of_not_lt h)

theorem list_getD_set_of_lt {α : Type} (l : List α) (n : Nat) (v d : α)
    (h : n < l.length) : (l.set n v).getD n d = v := by
  simp [List.getD, List.getElem?_set_self', h]

theorem list_set_sub_add_cancel {α : Type} [AddGroup α] (l : List α) (n : Nat) (x : α) :
    (l.set n (l.getD n 0 - x)).set n ((l.set n (l.getD n 0 - x)).getD n 0 + x) = l := by
  by_cases h : n < l.length
  · rw [list_getD_set_of_lt _ _ _ _ h, List.set_set, sub_add_cancel]
    exact list_set_getD_self l n 0
  · rw [List.set_eq_of_length_le (Nat.le_of_not_lt h),
      List.set_eq_of_length_le (Nat.le_of_not_lt h)]

theorem list_getD_append_left {α : Type} (l l' : List α) (n : Nat) (d : α)
    (h : n < l.length) : (l ++ l').getD n d = l.getD n d := by
  simp [List.getD, List.getElem?_append_left h]

theorem list_getD_append_right {α : Type} (l l' : List α) (n : Nat) (d : α) :
    (l ++ l').getD (l.length + n) d = l'.getD n d := by
  simp [List.getD, List.getElem?_append_right (Nat.le_add_right l.length n)]

theorem list_getD_map_range {α : Type} (f : Nat → α) (n i : Nat) (d : α) (h : i < n) :
    ((List.range n).map f).getD i d = f i := by
  simp [List.getD, List.getElem?_map, List.getElem?_range h]

theorem list_getD_replicate {α : Type} (n i : Nat) (a : α) :
    (List.replicate n a).getD i a = a := by
  by_cases h : i < n
  · simp [List.getD, List.getElem?_eq_getElem (by simpa using h : i < (List.replicate n a).length)]
  · have hlen : (List.replicate n a).length ≤ i := by simpa using Nat.le_of_not_lt h
    simp [List.getD, List.getElem?_eq_none hlen]

theorem list_sum_map_neg (l : List Nat) (f : Nat → ℚ) :
    (l.map (fun a => -f a)).sum = -(l.map f).sum := by
  induction l with
  | nil => simp
  | cons a t ih => simp [ih]; ring

theorem list_map_range_getD {α : Type}
    (m : List Nat) (N : Nat) (h : m.length = N) (f : Nat → α) :
    (List.range N).map (fun i => f (m.getD i 0)) = m.map f := by
  apply List.ext_getElem
  · simp [h]
  · intro i h1 h2
    simp only [List.length_map, List.length_range] at h1 h2
    simp [List.getD, List.getElem?_eq_getElem (show i < m.length by omega)]

theorem list_sum_comm (E : List (Nat × Nat × ℚ)) (n : Nat) {M : Type} [AddCommMonoid M]
    (f : Nat → (Nat × Nat × ℚ) → M) :
    ((List.range n).map (fun i => (E.map (f i)).sum)).sum
      = (E.map (fun e => ((List.range n).map (fun i => f i e)).sum)).sum := by
  induction E with
  | nil => simp
  | cons e t ih =>
    simp only [List.map_cons, List.sum_cons]
    rw [← ih, ← List.sum_map_add]

theorem list_sum_filter_map {α : Type} {M : Type} [AddCommMonoid M]
    (l : List α) (p : α → Bool) (f : α → M) :
    ((l.filter p).map f).sum = (l.map (fun a => if p a then f a else 0)).sum := by
  induction l with
  | nil => simp
  | cons a t ih =>
    by_cases h : p a <;> simp [List.filter_cons, h, ih]

theorem list_sum_map_ite_eq {M : Type} [AddCommMonoid M] (n a : Nat) (x : M) :
    ((List.range n).map (fun i => if i = a then x else 0)).sum = if a < n then x else 0 := by
  induction n with
  | zero => simp
  | succ n ih =>
    rw [List.range_succ]
    simp only [List.map_append, List.sum_append, List.map_cons, List.map_nil, List.sum_cons,
      List.sum_nil, ih]
    by_cases h1 : a < n
    · have : ¬(n = a) := by omega
      simp [this, h1, Nat.lt_succ_of_lt h1]
    · by_cases h2 : n = a
      · subst h2
        simp [h1, Nat.lt_succ_self]
      · have : ¬(a < n + 1) := by omega
        simp [h1, h2, this]

theorem list_getD_map_of_lt {α β : Type} (l : List α) (f : α → β) (j : Nat)
    (d : β) (d' : α) (h : j < l.length) : (l.map f).getD j d = f (l.getD j d') := by
  simp [List.getD, List.getElem?_map, List.getElem?_eq_getElem h]

theorem list_length_filter_eq_sum {α : Type} (l : List α) (p : α → Bool) :
    (l.filter p).length = (l.map (fun a => if p a then 1 else 0)).sum := by
  induction l with
  | nil => simp
  | cons a t ih =>
    by_cases h : p a <;> simp [List.filter_cons, h, ih] <;> omega

theorem list_flatten_getD {α : Type} (Ls : List (List α)) :
    ∀ (i k : Nat) (d : α), k < (Ls.getD i []).length →
      Ls.flatten.getD ((((Ls.take i).map List.length).sum) + k) d = (Ls.getD i []).getD k d := by
  induction Ls with
  | nil => intro i k d h; simp at h
  | cons L t ih =>
    intro i k d h
    cases i with
    | zero =>
      simp only [List.getD] at h ⊢
      simp only [List.take_zero, List.map_nil, List.sum_nil, Nat.zero_add, List.flatten_cons]
      have hL : k < L.length := by simpa using h
      simp [List.getElem?_append_left hL]
    | succ i =>
      simp only [List.getD_cons_succ] at h ⊢
      simp only [List.take_succ_cons, List.map_cons, List.sum_cons, List.flatten_cons]
      rw [Nat.add_assoc, list_getD_append_right]
      exact ih i k d h

namespace UGraph

theorem psum_succ (g : UGraph) (i : Nat) :
    g.psum (i + 1) = g.psum i + (g.blockEntries i).length := by
  unfold psum
  rw [List.range_succ]
  simp

theorem psum_mono (g : UGraph) {i j : Nat} (h : i ≤ j) : g.psum i ≤ g.psum j := by
  induction j with
  | zero =>
    have h0 : i = 0 := Nat.le_zero.mp h
    subst h0
    exact Nat.le_refl _
  | succ m ihm =>
    rcases Nat.lt_or_ge i (m + 1) with h1 | h1
    · have := ihm (Nat.le_of_lt_succ h1)
      rw [psum_succ]
      omega
    · have heq : i = m + 1 := Nat.le_antisymm h h1
      subst heq
      exact Nat.le_refl _

theorem entries_length (g : UGraph) : g.entries.length = g.psum g.order := by
  unfold entries psum
  rw [List.length_flatten, List.map_map]
  rfl

theorem entries_getD (g : UGraph) (i k : Nat) (hi : i < g.order)
    (hk : k < (g.blockEntries i).length) (d : Nat × ℚ) :
    g.entries.getD (g.psum i + k) d = (g.blockEntries i).getD k d := by
  have hmap : ((List.range g.order).map g.blockEntries).getD i [] = g.blockEntries i :=
    list_getD_map_range _ _ _ _ hi
  have htake : (((List.range g.order).map g.blockEntries).take i).map List.length
      = (List.range i).map (fun k => (g.blockEntries k).length) := by
    rw [← List.map_take, List.take_range, Nat.min_eq_left (Nat.le_of_lt hi), List.map_map]
    rfl
  have := list_flatten_getD ((List.range g.order).map g.blockEntries) i k d (by rw [hmap]; exact hk)
  rw [hmap] at this
  rw [← this]
  unfold entries psum
  rw [htake]

/-- Each edge is incident to at most two nodes, so the constructor lays out at
most `2 * size` entries. -/
theorem psum_le_two_size (g : UGraph) : g.psum g.order ≤ 2 * g.size := by
  have hblock : ∀ i, (g.blockEntries i).length
      = (g.edgeList.map (fun e => if (e.1 == i || e.2.1 == i) then 1 else 0)).sum := by
    intro i
    unfold blockEntries incident
    rw [List.length_map, list_length_filter_eq_sum]
  unfold psum
  calc ((List.range g.order).map (fun k => (g.blockEntries k).length)).sum
      = ((List.range g.order).map (fun i =>
          (g.edgeList.map (fun e => if (e.1 == i || e.2.1 == i) then 1 else 0)).sum)).sum := by
        congr 1
        exact List.map_congr_left (fun i _ => hblock i)
    _ = (g.edgeList.map (fun e =>
          ((List.range g.order).map (fun i => if (e.1 == i || e.2.1 == i) then 1 else 0)).sum)).sum :=
        list_sum_comm _ _ _
    _ ≤ (g.edgeList.map (fun _ => 2)).sum := by
        apply List.sum_le_sum
        intro e _
        calc ((List.range g.order).map (fun i => if (e.1 == i || e.2.1 == i) then 1 else 0)).sum
            ≤ ((List.range g.order).map (fun i =>
                (if i = e.1 then 1 else 0) + (if i = e.2.1 then 1 else 0))).sum := by
              apply List.sum_le_sum
              intro i _
              by_cases h1 : i = e.1 <;> by_cases h2 : i = e.2.1 <;>
                simp [h1, h2, beq_iff_eq] <;> omega
          _ = (if e.1 < g.order then 1 else 0) + (if e.2.1 < g.order then 1 else 0) := by
              rw [List.sum_map_add]
              rw [show (fun i => if i = e.1 then 1 else 0)
                    = (fun i => if i = e.1 then (1 : Nat) else 0) from rfl]
              rw [list_sum_map_ite_eq, list_sum_map_ite_eq]
          _ ≤ 2 := by
              by_cases h1 : e.1 < g.order <;> by_cases h2 : e.2.1 < g.order <;> simp [h1, h2]
    _ = 2 * g.size := by
        rw [List.map_const', List.sum_replicate, smul_eq_mul]
        unfold size
        omega

end UGraph

/-- The constructor's `if (node < neighbor) this.M += weight` test selects,
for an edge with two distinct in-range endpoints, exactly one node of the
iteration: the smaller endpoint.  Summed over all nodes the edge therefore
contributes its weight exactly once. -/
theorem per_edge_M (n a b : Nat) (w : ℚ) (ha : a < n) (hb : b < n) (hab : a ≠ b) :
    ((List.range n).map (fun i =>
      if ((a, b, w).1 == i || (a, b, w).2.1 == i)
      then (if decide (i < UGraph.opposite i (a, b, w)) then (a, b, w).2.2 else 0)
      else 0)).sum = w := by
  rcases Nat.lt_or_gt_of_ne hab with hlt | hlt
  · have hpt : ∀ i, (if ((a, b, w).1 == i || (a, b, w).2.1 == i)
        then (if decide (i < UGraph.opposite i (a, b, w)) then (a, b, w).2.2 else 0) else 0)
        = if i = a then w else 0 := by
      intro i
      simp only [UGraph.opposite]
      by_cases h1 : i = a
      · subst h1
        simp [hlt]
      · by_cases h2 : i = b
        · subst h2
          have h3 : ¬(i < a) := by omega
          have h4 : ¬(a = i) := by omega
          simp [beq_iff_eq, h1, h3, h4]
        · have h3 : ¬(a = i) := fun h => h1 h.symm
          have h4 : ¬(b = i) := fun h => h2 h.symm
          simp [beq_iff_eq, h1, h3, h4]
    rw [List.map_congr_left (fun i _ => hpt i), list_sum_map_ite_eq]
    simp [ha]
  · have hpt : ∀ i, (if ((a, b, w).1 == i || (a, b, w).2.1 == i)
        then (if decide (i < UGraph.opposite i (a, b, w)) then (a, b, w).2.2 else 0) else 0)
        = if i = b then w else 0 := by
      intro i
      simp only [UGraph.opposite]
      by_cases h1 : i = b
      · subst h1
        have h4 : ¬(a = i) := by omega
        simp [beq_iff_eq, h4, hlt]
      · by_cases h2 : i = a
        · subst h2
          have h3 : ¬(i < b) := by omega
          simp [beq_iff_eq, h1, h3]
        · have h3 : ¬(a = i) := fun h => h2 h.symm
          have h4 : ¬(b = i) := fun h => h1 h.symm
          simp [beq_iff_eq, h1, h3, h4]
    rw [List.map_congr_left (fun i _ => hpt i), list_sum_map_ite_eq]
    simp [hb]

namespace UGraph

/-- With no self-loops and in-range endpoints, the constructor's `M` is the
sum of all edge weights: each edge is counted exactly once, at its smaller
endpoint. -/
theorem buildM_eq (g : UGraph) (hwf : g.wf) (hl : ∀ e ∈ g.edgeList, e.1 ≠ e.2.1) :
    g.buildM = (g.edgeList.map (fun e => e.2.2)).sum := by
  unfold buildM
  have h1 : ∀ i : Nat,
      (((g.incident i).filter (fun e => decide (i < opposite i e))).map
        (fun e => e.2.2)).sum
      = (g.edgeList.map (fun e =>
          if (e.1 == i || e.2.1 == i)
          then (if decide (i < opposite i e) then e.2.2 else 0) else 0)).sum := by
    intro i
    rw [list_sum_filter_map]
    unfold incident
    rw [list_sum_filter_map]
  rw [List.map_congr_left (fun i _ => h1 i), list_sum_comm]
  apply congrArg
  apply List.map_congr_left
  intro e he
  obtain ⟨a, b, w⟩ := e
  exact per_edge_M g.order a b w (hwf _ he).1 (hwf _ he).2 (hl _ he)

end UGraph

namespace UndirectedLouvainIndex

theorem ofGraph_starts_getD (g : UGraph) (kd kc : Bool) {i : Nat} (h : i < g.order) :
    (ofGraph g kd kc).starts.getD i 0 = g.psum i := by
  show (((List.range g.order).map g.psum) ++ [2 * g.size]).getD i 0 = g.psum i
  rw [list_getD_append_left _ _ _ _ (by simpa using h)]
  exact list_getD_map_range _ _ _ _ h

theorem ofGraph_starts_getD_order (g : UGraph) (kd kc : Bool) :
    (ofGraph g kd kc).starts.getD g.order 0 = 2 * g.size := by
  show (((List.range g.order).map g.psum) ++ [2 * g.size]).getD g.order 0 = 2 * g.size
  have h : ((List.range g.order).map g.psum).length = g.order := by simp
  calc (((List.range g.order).map g.psum) ++ [2 * g.size]).getD g.order 0
      = (((List.range g.order).map g.psum) ++ [2 * g.size]).getD
          (((List.range g.order).map g.psum).length + 0) 0 := by rw [Nat.add_zero, h]
    _ = ([2 * g.size] : List Nat).getD 0 0 := list_getD_append_right _ _ _ _
    _ = 2 * g.size := rfl

theorem ofGraph_totalWeights_getD (g : UGraph) (kd kc : Bool) {i : Nat} (h : i < g.order) :
    (ofGraph g kd kc).totalWeights.getD i 0 = g.wdegree i := by
  show ((List.range g.order).map g.wdegree).getD i 0 = g.wdegree i
  exact list_getD_map_range _ _ _ _ h

theorem ofGraph_internalWeights_getD (g : UGraph) (kd kc : Bool) (i : Nat) :
    (ofGraph g kd kc).internalWeights.getD i 0 = 0 := by
  show (List.replicate g.order (0 : ℚ)).getD i 0 = 0
  exact list_getD_replicate _ _ _

theorem ofGraph_neighborhood_getD (g : UGraph) (kd kc : Bool) {j : Nat}
    (h : j < g.entries.length) :
    (ofGraph g kd kc).neighborhood.getD j 0 = (g.entries.getD j (0, 0)).1 := by
  show ((g.entries.map Prod.fst) ++ _).getD j 0 = (g.entries.getD j (0, 0)).1
  rw [list_getD_append_left _ _ _ _ (by simpa using h)]
  exact list_getD_map_of_lt _ _ _ _ (0, 0) h

theorem ofGraph_weights_getD (g : UGraph) (kd kc : Bool) {j : Nat}
    (h : j < g.entries.length) :
    (ofGraph g kd kc).weights.getD j 0 = (g.entries.getD j (0, 0)).2 := by
  show ((g.entries.map Prod.snd) ++ _).getD j 0 = (g.entries.getD j (0, 0)).2
  rw [list_getD_append_left _ _ _ _ (by simpa using h)]
  exact list_getD_map_of_lt _ _ _ _ (0, 0) h

/-- Every `(neighbor, weight)` pair the constructor's loop appends for node
`i` is stored in node `i`'s adjacency block of the built index. -/
theorem ofGraph_mem_blockAt (g : UGraph) (kd kc : Bool) {i : Nat}
    (hi : i < g.order) {p : Nat × ℚ} (hp : p ∈ g.blockEntries i) :
    p ∈ (ofGraph g kd kc).blockAt i := by
  obtain ⟨k, hk, hpk⟩ := List.mem_iff_getElem.mp hp
  have ha : (ofGraph g kd kc).starts.getD i 0 = g.psum i := ofGraph_starts_getD g kd kc hi
  have hb : g.psum i + (g.blockEntries i).length ≤ (ofGraph g kd kc).starts.getD (i + 1) 0 := by
    rcases Nat.lt_or_ge (i + 1) g.order with h1 | h1
    · rw [ofGraph_starts_getD g kd kc h1]
      exact Nat.le_of_eq (g.psum_succ i).symm
    · have h2 : i + 1 = g.order := by omega
      rw [h2, ofGraph_starts_getD_order]
      calc g.psum i + (g.blockEntries i).length = g.psum (i + 1) := (g.psum_succ i).symm
        _ ≤ g.psum g.order := g.psum_mono (by omega)
        _ ≤ 2 * g.size := g.psum_le_two_size
  have hentlen : g.psum i + k < g.entries.length := by
    rw [g.entries_length]
    calc g.psum i + k < g.psum i + (g.blockEntries i).length := by omega
      _ = g.psum (i + 1) := (g.psum_succ i).symm
      _ ≤ g.psum g.order := g.psum_mono (by omega)
  unfold blockAt bounds
  apply List.mem_map.mpr
  refine ⟨g.psum i + k, ?_, ?_⟩
  · apply List.mem_range'_1.mpr
    constructor
    · rw [ha]; omega
    · rw [ha]
      have hge : g.psum i ≤ (ofGraph g kd kc).starts.getD (i + 1) 0 := by omega
      omega
  · rw [ofGraph_neighborhood_getD g kd kc hentlen, ofGraph_weights_getD g kd kc hentlen,
      Prod.mk.eta, g.entries_getD i k hi hk]
    rw [List.getD_eq_getElem _ _ hk]
    exact hpk

end UndirectedLouvainIndex

/-! ## Dendrogram / flattened-mapping composition -/

theorem composeMaps_length (N : Nat) (bs : List (List Nat)) :
    (composeMaps N bs).length = N := by
  unfold composeMaps
  suffices h : ∀ (bs : List (List Nat)) (m : List Nat),
      (bs.foldl (fun m b => m.map (fun x => b.getD x 0)) m).length = m.length by
    simpa using h bs (List.range N)
  intro bs
  induction bs with
  | nil => intro m; rfl
  | cons b t ih =>
    intro m
    rw [List.foldl_cons, ih]
    simp

theorem composeMaps_append (N : Nat) (bs : List (List Nat)) (b : List Nat) :
    composeMaps N (bs ++ [b]) = (composeMaps N bs).map (fun x => b.getD x 0) := by
  unfold composeMaps
  rw [List.foldl_append]
  rfl

theorem dendroSpec_append (N : Nat) (bs : List (List Nat)) (b : List Nat) :
    dendroSpec N (bs ++ [b]) = dendroSpec N bs ++ [composeMaps N (bs ++ [b])] := by
  unfold dendroSpec
  have hlen : (bs ++ [b]).length = bs.length + 1 := by simp
  rw [hlen, List.range_succ, List.map_append]
  congr 1
  · apply List.map_congr_left
    intro k hk
    have hk' : k ≤ bs.length := by
      simp only [List.mem_range] at hk
      omega
    rw [List.take_append_of_le_length hk']
  · simp only [List.map_cons, List.map_nil]
    rw [← hlen, List.take_length]

theorem dendroSpec_getD (N : Nat) (bs : List (List Nat)) (k : Nat) (h : k ≤ bs.length) :
    (dendroSpec N bs).getD k [] = composeMaps N (bs.take k) := by
  unfold dendroSpec
  exact list_getD_map_range _ _ _ _ (by omega)

namespace UndirectedLouvainIndex

theorem zoomOut_keepDendrogram (s : UndirectedLouvainIndex) :
    s.zoomOut.keepDendrogram = s.keepDendrogram := rfl

theorem zoomOut_N (s : UndirectedLouvainIndex) : s.zoomOut.N = s.N := rfl

theorem zoomOut_level (s : UndirectedLouvainIndex) : s.zoomOut.level = s.level + 1 := rfl

theorem zoomOut_dendrogram_keep (s : UndirectedLouvainIndex) (h : s.keepDendrogram = true) :
    s.zoomOut.dendrogram = s.dendrogram ++
      [(List.range s.N).map (fun i =>
        s.zoomBelongings.getD ((s.dendrogram.getD s.level []).getD i 0) 0)] := by
  simp [zoomOut, h]

theorem zoomOut_mapping_flat (s : UndirectedLouvainIndex) (h : s.keepDendrogram = false) :
    s.zoomOut.mapping
      = (List.range s.N).map (fun i => s.zoomBelongings.getD (s.mapping.getD i 0) 0) := by
  simp [zoomOut, h]

end UndirectedLouvainIndex

/-- Along any run in dendrogram mode, the dendrogram is exactly the list of
compositions of the per-level belongings arrays recorded at the `zoomOut`s. -/
theorem runOps_dendrogram_spec (ops : List LouvainOp) :
    ∀ (s : UndirectedLouvainIndex) (bs : List (List Nat)),
      s.keepDendrogram = true → s.level = bs.length → s.dendrogram = dendroSpec s.N bs →
      (runOps s ops).keepDendrogram = true ∧ (runOps s ops).N = s.N ∧
      (runOps s ops).level = (bs ++ levelMaps s ops).length ∧
      (runOps s ops).dendrogram = dendroSpec s.N (bs ++ levelMaps s ops) := by
  induction ops with
  | nil =>
    intro s bs h1 h2 h3
    refine ⟨h1, rfl, ?_, ?_⟩
    · simpa [runOps, levelMaps] using h2
    · simpa [runOps, levelMaps] using h3
  | cons op rest ih =>
    intro s bs h1 h2 h3
    have hrun : runOps s (op :: rest) = runOps (applyOp s op) rest := rfl
    cases op with
    | move i d cd td t =>
      have hlm : levelMaps s (.move i d cd td t :: rest)
          = levelMaps (applyOp s (.move i d cd td t)) rest := by
        simp [levelMaps]
      rw [hrun, hlm]
      exact ih _ bs h1 h2 h3
    | expensive i ci =>
      have hlm : levelMaps s (.expensive i ci :: rest)
          = levelMaps (applyOp s (.expensive i ci)) rest := by
        simp [levelMaps]
      rw [hrun, hlm]
      exact ih _ bs h1 h2 h3
    | zoom =>
      have hd : s.zoomOut.dendrogram = dendroSpec s.N (bs ++ [s.zoomBelongings]) := by
        rw [s.zoomOut_dendrogram_keep h1, h3]
        have hcur : (dendroSpec s.N bs).getD s.level [] = composeMaps s.N bs := by
          rw [h2, dendroSpec_getD _ _ _ (Nat.le_refl _), List.take_length]
        rw [hcur]
        have hnext : (List.range s.N).map
              (fun i => s.zoomBelongings.getD ((composeMaps s.N bs).getD i 0) 0)
            = composeMaps s.N (bs ++ [s.zoomBelongings]) := by
          rw [composeMaps_append]
          exact list_map_range_getD (composeMaps s.N bs) s.N (composeMaps_length s.N bs)
            (fun x => s.zoomBelongings.getD x 0)
        rw [hnext, dendroSpec_append]
      have hlvl : s.zoomOut.level = (bs ++ [s.zoomBelongings]).length := by
        rw [s.zoomOut_level, h2]
        simp
      have ihz := ih s.zoomOut (bs ++ [s.zoomBelongings]) h1 hlvl hd
      have hlm : levelMaps s (.zoom :: rest)
          = s.zoomBelongings :: levelMaps s.zoomOut rest := by
        simp [levelMaps, applyOp]
      rw [hrun, hlm]
      refine ⟨ihz.1, ihz.2.1, ?_, ?_⟩
      · rw [show bs ++ s.zoomBelongings :: levelMaps s.zoomOut rest
            = (bs ++ [s.zoomBelongings]) ++ levelMaps s.zoomOut rest from by simp]
        exact ihz.2.2.1
      · rw [show bs ++ s.zoomBelongings :: levelMaps s.zoomOut rest
            = (bs ++ [s.zoomBelongings]) ++ levelMaps s.zoomOut rest from by simp]
        exact ihz.2.2.2

/-- Along any run in flattened mode, the mapping array is exactly the
composition of the per-level belongings arrays recorded at the `zoomOut`s. -/
theorem runOps_mapping_spec (ops : List LouvainOp) :
    ∀ (s : UndirectedLouvainIndex) (bs : List (List Nat)),
      s.keepDendrogram = false → s.mapping = composeMaps s.N bs →
      (runOps s ops).keepDendrogram = false ∧ (runOps s ops).N = s.N ∧
      (runOps s ops).mapping = composeMaps s.N (bs ++ levelMaps s ops) := by
  induction ops with
  | nil =>
    intro s bs h1 h2
    refine ⟨h1, rfl, ?_⟩
    simpa [runOps, levelMaps] using h2
  | cons op rest ih =>
    intro s bs h1 h2
    have hrun : runOps s (op :: rest) = runOps (applyOp s op) rest := rfl
    cases op with
    | move i d cd td t =>
      have hlm : levelMaps s (.move i d cd td t :: rest)
          = levelMaps (applyOp s (.move i d cd td t)) rest := by
        simp [levelMaps]
      rw [hrun, hlm]
      exact ih _ bs h1 h2
    | expensive i ci =>
      have hlm : levelMaps s (.expensive i ci :: rest)
          = levelMaps (applyOp s (.expensive i ci)) rest := by
        simp [levelMaps]
      rw [hrun, hlm]
      exact ih _ bs h1 h2
    | zoom =>
      have hm : s.zoomOut.mapping = composeMaps s.N (bs ++ [s.zoomBelongings]) := by
        rw [s.zoomOut_mapping_flat h1, h2, composeMaps_append]
        exact list_map_range_getD (composeMaps s.N bs) s.N (composeMaps_length s.N bs)
            (fun x => s.zoomBelongings.getD x 0)
      have ihz := ih s.zoomOut (bs ++ [s.zoomBelongings]) h1 hm
      have hlm : levelMaps s (.zoom :: rest)
          = s.zoomBelongings :: levelMaps s.zoomOut rest := by
        simp [levelMaps, applyOp]
      rw [hrun, hlm]
      refine ⟨ihz.1, ihz.2.1, ?_⟩
      rw [show bs ++ s.zoomBelongings :: levelMaps s.zoomOut rest
            = (bs ++ [s.zoomBelongings]) ++ levelMaps s.zoomOut rest from by simp]
      exact ihz.2.2

/-! ## Claims -/

/-- C1: the spec claims `sum(totalWeights over communities 0..C-1) = 2*M`
after construction and after every valid `move` (degree figures matching the
node's actual adjacency sums, here recomputed by `expensiveMove` itself) and
every `zoomOut`.  On the weighted star the invariant holds after
construction, after the first `zoomOut` and after the valid
`expensiveMove 2 0`, but after the second `zoomOut` the sum is `17` while
`2*M = 18`: `zoomOut` reads `this.weights[n]` (the neighbour's node id)
instead of `this.weights[j]` when accumulating induced weights, so induced
adjacency sums drift from `totalWeights` and a community emptied by a valid
move retains nonzero `totalWeights`, which the next `zoomOut` drops. -/
theorem sumTotalWeights_invariant_violation :
    sumTotalWeights starIdx = 2 * starIdx.M ∧
    sumTotalWeights starIdx.zoomOut = 2 * starIdx.M ∧
    sumTotalWeights starIdx2 = 2 * starIdx.M ∧
    starIdx3.M = starIdx.M ∧
    sumTotalWeights starIdx3 = 17 ∧
    2 * starIdx3.M = 18 := by
  have hS0 : starIdx = ⟨4, 9, 6, 0, 4, [1, 2, 3, 0, 0, 0], [2, 3, 4, 2, 3, 4],
      [0, 0, 0, 0], [0, 3, 4, 5, 6], [0, 1, 2, 3], [], [0, 0, 0, 0], [9, 2, 3, 4],
      false, false, [], [0, 1, 2, 3]⟩ := by
    norm_num [starIdx, UndirectedLouvainIndex.ofGraph, starG, UGraph.entries,
      UGraph.blockEntries, UGraph.incident, UGraph.opposite, UGraph.wdegree,
      UGraph.psum, UGraph.buildM, UGraph.size, List.range_succ,
      List.replicate_succ]
  have hS1 : starIdx.zoomOut = ⟨4, 9, 6, 1, 4, [1, 2, 3, 0, 0, 0], [3, 4, 2, 2, 2, 2],
      [0, 0, 0, 0], [0, 3, 4, 5, 6], [0, 1, 2, 3], [], [0, 0, 0, 0], [9, 2, 3, 4],
      false, false, [], [0, 1, 2, 3]⟩ := by
    rw [hS0]
    decide
  have hS2 : starIdx2 = ⟨4, 9, 6, 1, 4, [1, 2, 3, 0, 0, 0], [3, 4, 2, 2, 2, 2],
      [0, 0, 0, 0], [0, 3, 4, 5, 6], [0, 1, 0, 3], [], [4, 0, 0, 0], [11, 2, 1, 4],
      false, false, [], [0, 1, 2, 3]⟩ := by
    show starIdx.zoomOut.expensiveMove 2 0 = _
    rw [hS1]
    norm_num [UndirectedLouvainIndex.expensiveMove, UndirectedLouvainIndex.move,
      List.range']
  have hS3 : starIdx3 = ⟨3, 9, 4, 2, 4, [1, 2, 0, 0, 0, 0], [4, 2, 3, 3, 2, 2],
      [4, 0, 0, 0], [0, 2, 3, 4, 6], [0, 1, 2, 2], [], [4, 0, 0, 0], [11, 2, 4, 4],
      false, false, [], [0, 1, 0, 2]⟩ := by
    show starIdx2.zoomOut = _
    rw [hS2]
    decide
  refine ⟨?_, ?_, ?_, ?_, ?_, ?_⟩
  · rw [hS0]
    norm_num [sumTotalWeights, List.range_succ]
  · rw [hS1, hS0]
    norm_num [sumTotalWeights, List.range_succ]
  · rw [hS2, hS0]
    norm_num [sumTotalWeights, List.range_succ]
  · rw [hS3, hS0]
  · rw [hS3]
    norm_num [sumTotalWeights, List.range_succ]
  · rw [hS3]
    norm_num

/-- C2: the spec claims the induced coarse graph accumulates, between two
distinct communities, the sum of the weights of the current-level edges
joining them.  Coarsening the all-singleton weighted star stores weight `3`
between communities `0` and `1`, while the single edge joining them has
weight `2` (`adj[cj] += this.weights[n]` reads the weight array at the
neighbour's node id `n`, not at the scanned slot `j`). -/
theorem zoomOut_inducedWeight_violation :
    (starIdx.zoomOut.blockAt 0).lookup 1 = some 3 ∧
    interCommunityWeightSpec starG starIdx.belongings 0 1 = 2 ∧
    (3 : ℚ) ≠ 2 := by
  have hb : starIdx.belongings = [0, 1, 2, 3] := by
    show (List.range starG.order : List Nat) = _
    norm_num [starG, List.range_succ]
  refine ⟨by decide, ?_, by decide⟩
  rw [hb]
  norm_num [interCommunityWeightSpec, starG]

/-- C4: the spec claims that, after construction and after every `zoomOut`,
node `i`'s block holds its outgoing edges in `starts[i]..offsets[i]` and its
incoming edges in `offsets[i]..starts[i+1]`.  This holds after construction
of the directed graph `0 → 1`, but after one `zoomOut` community `0`'s
out-sub-range `[0, 0)` is empty while its single outgoing induced edge (to
community `1`) is stored at position `0`, inside the in-sub-range `[0, 1)`:
the rewrite emits `inAdj` before recording `offsets[ci]` and `outAdj` after
it (the reverse of the constructor's layout), and `adj = out === 0 ? inAdj :
outAdj` compares a boolean to a number, so every entry lands in `outAdj`. -/
theorem directed_blockSplit_violation :
    dirIdx.outBounds 0 = (0, 1) ∧
    dirIdx.neighborhood.getD 0 0 = 1 ∧
    dirIdx.zoomOut.outBounds 0 = (0, 0) ∧
    dirIdx.zoomOut.inBounds 0 = (0, 1) ∧
    dirIdx.zoomOut.neighborhood.getD 0 0 = 1 := by
  refine ⟨?_, ?_, ?_, ?_, ?_⟩ <;> decide

/-- C9: the spec claims that after each build and each `zoomOut`, `starts`
is non-decreasing and `starts[C] = E`, the count of edge-endpoint entries
currently stored.  After merging nodes `0`,`1` of the triangle and zooming
out, `starts[C] = E = 4` but the rewrite stores only `2` entries: the
vendored `zoomOut` increments `E` once per scanned inter-community entry
instead of once per stored (distinct-target) entry. -/
theorem starts_E_storedCount_violation :
    triIdx.zoomOut.C = 2 ∧
    triIdx.zoomOut.E = 4 ∧
    triIdx.zoomOut.starts.getD triIdx.zoomOut.C 0 = 4 ∧
    triIdx.zoomOutWritten = 2 ∧
    triIdx.zoomOut.starts.getD triIdx.zoomOut.C 0 ≠ triIdx.zoomOutWritten := by
  refine ⟨?_, ?_, ?_, ?_, ?_⟩ <;> decide

/-- C6: `move` with `targetCommunity` equal to the node's current community
and `targetCommunityDegree` equal to `currentCommunityDegree` leaves every
field of the index state unchanged. -/
theorem move_to_own_community_noop (s : UndirectedLouvainIndex) (i : Nat)
    (d cd td : ℚ) (t : Nat) (ht : t = s.belongings.getD i 0) (htd : td = cd) :
    s.move i d cd td t = s := by
  subst ht htd
  unfold UndirectedLouvainIndex.move
  cases s with
  | mk C M E level N neighborhood weights loops starts belongings counts
      internalWeights totalWeights keepCounts keepDendrogram dendrogram mapping =>
    simp only []
    by_cases hkc : keepCounts
    · simp only [hkc, if_true]
      congr 1
      · exact list_set_getD_self belongings i 0
      · exact list_set_sub_add_cancel counts _ _
      · exact list_set_sub_add_cancel internalWeights _ _
      · exact list_set_sub_add_cancel totalWeights _ _
    · simp only [hkc, if_false]
      congr 1
      · exact list_set_getD_self belongings i 0
      · exact list_set_sub_add_cancel internalWeights _ _
      · exact list_set_sub_add_cancel totalWeights _ _

/-- Witness for C6 at a concrete state (triangle index with counts kept). -/
theorem move_to_own_community_noop_witness :
    (UndirectedLouvainIndex.ofGraph triG false true).move 1 5 2 2 1
      = UndirectedLouvainIndex.ofGraph triG false true :=
  move_to_own_community_noop (UndirectedLouvainIndex.ofGraph triG false true) 1 5 2 2 1
    (by decide) (by decide)

/-- C7: for an in-range target community, `delta` returns exactly
`targetCommunityDegree / M - totalWeights[target] * degree / (2 * M²)`. -/
theorem delta_formula (s : UndirectedLouvainIndex) (d dt : ℚ) (t : Nat) (h : t < s.C) :
    s.delta d dt t = dt / s.M - s.totalWeights.getD t 0 * d / (2 * s.M ^ 2) := by
  unfold UndirectedLouvainIndex.delta
  ring

/-- Witness for C7 at a concrete state. -/
theorem delta_formula_witness :
    starIdx.delta 2 3 1
      = 3 / starIdx.M - starIdx.totalWeights.getD 1 0 * 2 / (2 * starIdx.M ^ 2) :=
  delta_formula starIdx 2 3 1 (by decide)

/-- C3: for every input graph and operation sequence, in dendrogram mode
`collect(ℓ)` at any level `ℓ` up to the current one equals the composition
of the per-level belongings arrays recorded at the zoom-outs up through
level `ℓ`, and in flattened mode the kept mapping (returned by `collect()`)
always equals the composition through the current level. -/
theorem collect_eq_belongings_composition (g : UGraph) (ops : List LouvainOp) (lvl : Nat) :
    (lvl ≤ (runOps (UndirectedLouvainIndex.ofGraph g true false) ops).level →
      (runOps (UndirectedLouvainIndex.ofGraph g true false) ops).collect lvl
        = composeMaps g.order
            ((levelMaps (UndirectedLouvainIndex.ofGraph g true false) ops).take lvl)) ∧
    (runOps (UndirectedLouvainIndex.ofGraph g false false) ops).collect
        (runOps (UndirectedLouvainIndex.ofGraph g false false) ops).level
      = composeMaps g.order (levelMaps (UndirectedLouvainIndex.ofGraph g false false) ops) := by
  constructor
  · intro hlvl
    have hbase3 : (UndirectedLouvainIndex.ofGraph g true false).dendrogram
        = dendroSpec (UndirectedLouvainIndex.ofGraph g true false).N [] := rfl
    have h := runOps_dendrogram_spec ops (UndirectedLouvainIndex.ofGraph g true false)
      [] rfl rfl hbase3
    have hlvl' : lvl ≤ ([] ++ levelMaps (UndirectedLouvainIndex.ofGraph g true false) ops).length := by
      rw [← h.2.2.1]
      exact hlvl
    simp only [UndirectedLouvainIndex.collect, h.1, if_true]
    rw [h.2.2.2, dendroSpec_getD _ _ _ hlvl']
    rfl
  · have h := runOps_mapping_spec ops (UndirectedLouvainIndex.ofGraph g false false) [] rfl rfl
    simp only [UndirectedLouvainIndex.collect, h.1, if_false]
    rw [h.2.2]
    rfl

/-- Witness for C3: on the path `0-1-2`, after merging node `1` into node
`0`'s community and zooming out, `collect(1)` is the composition of the
recorded level maps through level `1`. -/
theorem collect_eq_belongings_composition_witness :
    (runOps (UndirectedLouvainIndex.ofGraph pathG true false)
        [.expensive 1 0, .zoom]).collect 1
      = composeMaps pathG.order
          ((levelMaps (UndirectedLouvainIndex.ofGraph pathG true false)
              [.expensive 1 0, .zoom]).take 1) :=
  (collect_eq_belongings_composition pathG [.expensive 1 0, .zoom] 1).1 (by decide)

/-- Counterexample for C5: on a graph with a self-loop the constructor's `M`
does not equal the graph's total edge weight (the self-loop's weight is
never counted, since `node < neighbor` fails when both are the same node). -/
theorem build_M_self_loop_counterexample :
    (UndirectedLouvainIndex.ofGraph loopG false false).M
      ≠ (loopG.edgeList.map (fun e => e.2.2)).sum := by
  norm_num [UndirectedLouvainIndex.ofGraph, loopG, UGraph.buildM, UGraph.incident,
    UGraph.opposite, List.range_succ]

/-- C5 (amended to self-loop-free graphs): construction counts each edge's
weight into `M` exactly once — at the smaller endpoint in iteration order —
so `M` is the total edge weight; `E = 2 * size`; and each edge is stored in
both endpoints' adjacency blocks. -/
theorem build_counts_each_edge_once (g : UGraph) (hwf : g.wf)
    (hl : ∀ e ∈ g.edgeList, e.1 ≠ e.2.1) :
    (UndirectedLouvainIndex.ofGraph g false false).M
      = (g.edgeList.map (fun e => e.2.2)).sum ∧
    (UndirectedLouvainIndex.ofGraph g false false).E = 2 * g.size ∧
    ∀ e ∈ g.edgeList,
      (e.2.1, e.2.2) ∈ (UndirectedLouvainIndex.ofGraph g false false).blockAt e.1 ∧
      (e.1, e.2.2) ∈ (UndirectedLouvainIndex.ofGraph g false false).blockAt e.2.1 := by
  refine ⟨g.buildM_eq hwf hl, rfl, ?_⟩
  intro e he
  constructor
  · apply UndirectedLouvainIndex.ofGraph_mem_blockAt g false false (hwf e he).1
    unfold UGraph.blockEntries
    apply List.mem_map.mpr
    refine ⟨e, ?_, ?_⟩
    · apply List.mem_filter.mpr
      exact ⟨he, by simp⟩
    · simp [UGraph.opposite]
  · apply UndirectedLouvainIndex.ofGraph_mem_blockAt g false false (hwf e he).2
    unfold UGraph.blockEntries
    apply List.mem_map.mpr
    refine ⟨e, ?_, ?_⟩
    · apply List.mem_filter.mpr
      exact ⟨he, by simp⟩
    · have hne : ¬(e.1 = e.2.1) := hl e he
      simp [UGraph.opposite, hne]

/-- Witness for C5 (amended) on the path `0-1-2`. -/
theorem build_counts_each_edge_once_witness :
    (UndirectedLouvainIndex.ofGraph pathG false false).M
      = (pathG.edgeList.map (fun e => e.2.2)).sum ∧
    (UndirectedLouvainIndex.ofGraph pathG false false).E = 2 * pathG.size ∧
    ((1 : Nat), (1 : ℚ)) ∈ (UndirectedLouvainIndex.ofGraph pathG false false).blockAt 0 :=
  ⟨(build_counts_each_edge_once pathG (by unfold UGraph.wf; decide) (by decide)).1,
   (build_counts_each_edge_once pathG (by unfold UGraph.wf; decide) (by decide)).2.1,
   ((build_counts_each_edge_once pathG (by unfold UGraph.wf; decide) (by decide)).2.2 (0, 1, 1) (by decide)).1⟩

/-- C8: on a self-loop-free graph, `modularity()` evaluated on the
all-singleton state right after construction equals
`-Σ (deg_i / (2*M))²`, where `deg_i` is node `i`'s weighted degree. -/
theorem modularity_initial_state (g : UGraph) (kd kc : Bool)
    (hl : ∀ e ∈ g.edgeList, e.1 ≠ e.2.1) :
    (UndirectedLouvainIndex.ofGraph g kd kc).modularity
      = -(((List.range g.order).map
          (fun i => (g.wdegree i / (2 * (UndirectedLouvainIndex.ofGraph g kd kc).M)) ^ 2)).sum) := by
  unfold UndirectedLouvainIndex.modularity
  rw [← list_sum_map_neg]
  have hC : (UndirectedLouvainIndex.ofGraph g kd kc).C = g.order := rfl
  rw [hC]
  congr 1
  apply List.map_congr_left
  intro i hi
  have hi' : i < g.order := by simpa using hi
  rw [UndirectedLouvainIndex.ofGraph_internalWeights_getD,
    UndirectedLouvainIndex.ofGraph_totalWeights_getD g kd kc hi']
  rw [zero_div, zero_sub]
  ring

/-- Witness for C8 on the path `0-1-2`. -/
theorem modularity_initial_state_witness :
    (UndirectedLouvainIndex.ofGraph pathG false false).modularity
      = -(((List.range pathG.order).map
          (fun i => (pathG.wdegree i
            / (2 * (UndirectedLouvainIndex.ofGraph pathG false false).M)) ^ 2)).sum) :=
  modularity_initial_state pathG false false (by decide)

/-- C10: for every input graph, including graphs with self-loops,
immediately after construction `loops` and `internalWeights` are all zero,
while each self-loop is stored in its node's adjacency block and its weight
is included in that node's `totalWeights` (the incident-weight sum). -/
theorem build_ignores_self_loops (g : UGraph) (hwf : g.wf) :
    (UndirectedLouvainIndex.ofGraph g false false).loops = List.replicate g.order 0 ∧
    (UndirectedLouvainIndex.ofGraph g false false).internalWeights
      = List.replicate g.order 0 ∧
    (∀ i, i < g.order →
      (UndirectedLouvainIndex.ofGraph g false false).totalWeights.getD i 0 = g.wdegree i) ∧
    (∀ e ∈ g.edgeList, e.1 = e.2.1 →
      (e.1, e.2.2) ∈ (UndirectedLouvainIndex.ofGraph g false false).blockAt e.1) := by
  refine ⟨rfl, rfl, ?_, ?_⟩
  · intro i hi
    exact UndirectedLouvainIndex.ofGraph_totalWeights_getD g false false hi
  · intro e he hloop
    apply UndirectedLouvainIndex.ofGraph_mem_blockAt g false false (hwf e he).1
    unfold UGraph.blockEntries
    apply List.mem_map.mpr
    refine ⟨e, ?_, ?_⟩
    · apply List.mem_filter.mpr
      exact ⟨he, by simp⟩
    · simp [UGraph.opposite, hloop]

/-- Witness for C10 on the single-node self-loop graph. -/
theorem build_ignores_self_loops_witness :
    (UndirectedLouvainIndex.ofGraph loopG false false).loops = List.replicate 1 0 ∧
    (UndirectedLouvainIndex.ofGraph loopG false false).totalWeights.getD 0 0
      = loopG.wdegree 0 ∧
    ((0 : Nat), (1 : ℚ)) ∈ (UndirectedLouvainIndex.ofGraph loopG false false).blockAt 0 :=
  ⟨(build_ignores_self_loops loopG (by unfold UGraph.wf; decide)).1,
   (build_ignores_self_loops loopG (by unfold UGraph.wf; decide)).2.2.1 0 (by decide),
   (build_ignores_self_loops loopG (by unfold UGraph.wf; decide)).2.2.2 (0, 0, 1) (by decide) rfl⟩
